import Mathlib

/-!
Verification development for the jabberwocky partial-PyPI-mirror tool.

The Python sources under `src/jabberwocky/` are shallowly embedded below:
pure functions become Lean functions on `String` / `List`; code that can
raise becomes `Option`-valued; external library calls (the `packaging`
library, the network, the file system) become explicit parameters of the
embedding.  String primitives from Python (`str.split`, `str.strip`,
`int(...)`, slicing) are re-implemented on `List Char` so that all
definitions evaluate inside the kernel.
-/

namespace Jabberwocky

/-- Python whitespace for `str.strip()` / `int()` stripping (ASCII part:
space, tab, newline, carriage return, vertical tab, form feed). -/
def isPyWs (c : Char) : Bool :=
  c = ' ' || c = '\t' || c = '\n' || c = '\r' || c = '\x0b' || c = '\x0c'

/-- Strip leading and trailing Python whitespace, as `str.strip()`. -/
def pyStrip (s : String) : String :=
  String.mk (((s.data.dropWhile isPyWs).reverse.dropWhile isPyWs).reverse)

/-- `s.startswith(p)` on character lists. -/
def strStartsWith (s p : String) : Bool :=
  p.data.isPrefixOf s.data

/-- `s.endswith(p)` on character lists. -/
def strEndsWith (s p : String) : Bool :=
  p.data.isSuffixOf s.data

/-- `s[n:]` (character based, as in Python). -/
def strDrop (s : String) (n : Nat) : String :=
  String.mk (s.data.drop n)

/-- `len(s)` (character based, as in Python). -/
def strLen (s : String) : Nat :=
  s.data.length

/-- Split a character list at every occurrence of `sep` (Python
`s.split(sep)` for a one-character separator: adjacent separators are not
merged, the empty string yields `[""]`). -/
def splitSepChars (sep : Char) : List Char → List (List Char)
  | [] => [[]]
  | c :: rest =>
    if c = sep then [] :: splitSepChars sep rest
    else
      match splitSepChars sep rest with
      | h :: t => (c :: h) :: t
      | [] => [[c]]

/-- Helper for `splitDot`. -/
def splitDotChars : List Char → List (List Char) :=
  splitSepChars '.'

/-- Python `s.split(".")`. -/
def splitDot (s : String) : List String :=
  (splitDotChars s.data).map String.mk

/-- Digit-run parser used by `pyIntParse`: consumes decimal digits with
single underscores allowed only between digits, accumulating the value. -/
def pyDigitsCore (acc : Nat) : List Char → Option Nat
  | [] => some acc
  | c :: rest =>
    if c.isDigit then pyDigitsCore (10 * acc + (c.toNat - 48)) rest
    else if c = '_' then
      match rest with
      | d :: rest2 =>
        if d.isDigit then pyDigitsCore (10 * acc + (d.toNat - 48)) rest2
        else none
      | [] => none
    else none

/-- Nonempty digit run (first character must be a digit). -/
def pyDigitsParse : List Char → Option Nat
  | [] => none
  | c :: rest => if c.isDigit then pyDigitsCore (c.toNat - 48) rest else none

/-- Python `int(s)` on a decimal string: surrounding whitespace stripped,
one optional sign, then digits with optional single underscores between
digits.  `none` models the `ValueError`. -/
def pyIntParse (s : String) : Option Int :=
  match (pyStrip s).data with
  | '+' :: rest => (pyDigitsParse rest).map Int.ofNat
  | '-' :: rest => (pyDigitsParse rest).map (fun n => -(n : Int))
  | t => (pyDigitsParse t).map Int.ofNat

/-! ## Wheel tag engine (`src/jabberwocky/pypi.py`) -/

/-- `WheelFile` from `pypi.py`: a parsed wheel with its registry data and
the three tag lists from the filename. -/
structure WheelFile where
  filename : String
  url : String
  sha256 : String
  requiresPython : Option String
  python_tags : List String
  abi_tags : List String
  platform_tags : List String
deriving DecidableEq, Repr

/-- `_platform_tag_matches` from `pypi.py`: exact equality, or, for a
`linux_{arch}` target, a `manylinux`/`musllinux` wheel tag that ends in the
arch string (the code tests `wheel_plat.endswith(arch)`, with no
underscore prepended). -/
def platformTagMatches (wheelPlat targetPlat : String) : Bool :=
  if wheelPlat = targetPlat then true
  else if strStartsWith targetPlat "linux_" then
    let arch := strDrop targetPlat 6
    (strStartsWith wheelPlat "manylinux" || strStartsWith wheelPlat "musllinux")
      && strEndsWith wheelPlat arch
  else false

/-- `WheelFile.is_pure`. -/
def WheelFile.isPure (w : WheelFile) : Bool :=
  w.platform_tags.contains "any"

/-- `WheelFile.matches_platform`. -/
def WheelFile.matchesPlatform (w : WheelFile) (platform : String) : Bool :=
  if w.isPure then true
  else w.platform_tags.any (fun p => platformTagMatches p platform)

/-- The exact-tag test of `matches_python` (step 1): membership of the tag
in `(cp_tag, py_tag, py_full_tag, "py3", "cp3")`, where `major`/`minor`
are the raw parts of the version string. -/
def exactTagOk (major minor t : String) : Bool :=
  t = ("cp" ++ major ++ minor) || t = ("py" ++ major)
    || t = ("py" ++ major ++ minor) || t = "py3" || t = "cp3"

/-- The loop body of the abi3 branch of `matches_python` (step 2): the tag
starts with `cp3`, is longer than 3 characters, its remainder parses as an
integer (a `ValueError` means the tag is skipped), and the target is
major 3 with a minor at least the wheel minor. -/
def abi3TagOk (targetMajor targetMinor : Int) (tag : String) : Bool :=
  strStartsWith tag "cp3" && decide (strLen tag > 3)
    && (match pyIntParse (strDrop tag 3) with
        | some wheelMinor => targetMajor = 3 && decide (wheelMinor ≤ targetMinor)
        | none => false)

/-- `WheelFile.matches_python`.  The Python function raises on a version
string that does not split on `"."` into exactly two `int()`-parsable
parts; `none` models that exception. -/
def WheelFile.matchesPython (w : WheelFile) (pythonVersion : String) : Option Bool :=
  match splitDot pythonVersion with
  | [major, minor] =>
    match pyIntParse major, pyIntParse minor with
    | some targetMajor, some targetMinor =>
      if w.python_tags.any (exactTagOk major minor) then
        some true
      else if w.abi_tags.contains "abi3"
          && w.python_tags.any (abi3TagOk targetMajor targetMinor) then
        some true
      else
        some false
    | _, _ => none
  | _ => none

/-- Per-target marker environment from `_eval_marker_for_any_target`
(`pypi.py`, the body of the `for pyver in python_versions` loop).  The code
unpacks `major, minor = pyver.split(".")` — which raises unless the split
has exactly two parts — but never converts the parts to integers; the
environment itself is built from `pyver` directly. -/
structure MarkerEnv where
  python_version : String
  python_full_version : String
  sys_platform : String
  os_name : String
  platform_machine : String
  platform_system : String
  implementation_name : String
  extra : String
deriving DecidableEq, Repr

/-- The environment construction for one `(pyver, sys_platform)` pair;
`none` models the unpacking `ValueError`. -/
def markerEnvFor (pyver sysPlatform : String) : Option MarkerEnv :=
  match splitDot pyver with
  | [_, _] =>
    some
      { python_version := pyver
        python_full_version := pyver ++ ".0"
        sys_platform := sysPlatform
        os_name := if sysPlatform = "win32" then "nt" else "posix"
        platform_machine := ""
        platform_system :=
          if sysPlatform = "win32" then "Windows"
          else if sysPlatform = "darwin" then "Darwin"
          else "Linux"
        implementation_name := "cpython"
        extra := "" }
  | _ => none

/-! ## Downloader (`src/jabberwocky/downloader.py`) -/

/-- Python `any(f(x) for x in l)` where `f` may raise (`none`): the
generator short-circuits on the first `True`, raises on the first
exception. -/
def anyOpt (f : α → Option Bool) : List α → Option Bool
  | [] => some false
  | a :: rest =>
    match f a with
    | none => none
    | some true => some true
    | some false => anyOpt f rest

/-- Python list comprehension `[x for x in l if f(x)]` with a possibly
raising predicate. -/
def filterOpt (f : α → Option Bool) : List α → Option (List α)
  | [] => some []
  | a :: rest =>
    match f a with
    | none => none
    | some b => (filterOpt f rest).map (fun r => if b then a :: r else r)

/-- `_wheel_wanted` from `downloader.py`: compatible with at least one
target runtime version and at least one target platform.
`matches_python` may raise, which propagates (`none`). -/
def wheelWanted (w : WheelFile) (pythonVersions platforms : List String) : Option Bool :=
  match anyOpt w.matchesPython pythonVersions with
  | none => none
  | some pythonOk => some (pythonOk && platforms.any w.matchesPlatform)

/-- `Release` (the fields of `PackageRelease` used by the downloader and
index; the metadata URL plays no role in the claims). -/
structure Release where
  version : String
  wheels : List WheelFile
deriving DecidableEq, Repr

/-- `ResolvedPackage` from `pypi.py`. -/
structure ResolvedPackage where
  name : String
  version : String
  release : Release
  needsWheels : Bool
deriving DecidableEq, Repr

/-- Wheel selection for one package in `download_wheels` (`downloader.py`
lines 157–176): the wanted wheels, or the runtime-version-only fallback,
or all wheels. -/
def pkgWantedWheels (pkg : ResolvedPackage) (pythonVersions platforms : List String) :
    Option (List WheelFile) := do
  let wanted ← filterOpt (fun w => wheelWanted w pythonVersions platforms) pkg.release.wheels
  if wanted.isEmpty && !pkg.release.wheels.isEmpty then
    let pythonMatches ← filterOpt (fun w => anyOpt w.matchesPython pythonVersions)
      pkg.release.wheels
    if !pythonMatches.isEmpty then pure pythonMatches else pure pkg.release.wheels
  else
    pure wanted

/-- The enqueue loop of `download_wheels` (`downloader.py` lines 152–182):
the filenames handed to `_download_one`, in order.  `destExists` models
`(files_dir / wheel.filename).exists()`.  The code performs no validation
of the filename before building `dest` and enqueuing. -/
def downloadPending (resolved : List ResolvedPackage) (pythonVersions platforms : List String)
    (destExists : String → Bool) : Option (List String) :=
  match resolved with
  | [] => some []
  | pkg :: rest =>
    if !pkg.needsWheels then downloadPending rest pythonVersions platforms destExists
    else do
      let ws ← pkgWantedWheels pkg pythonVersions platforms
      let enq := (ws.filter (fun w => !destExists w.filename)).map (fun w => w.filename)
      let restPending ← downloadPending rest pythonVersions platforms destExists
      pure (enq ++ restPending)

/-- The wheel-filename validation described by the specification
(§4.4 "Validation & safety"): the filename contains no path separator and
no `..` segment.  Modelled from the wording of the spec; `download_wheels` itself
contains no such check. -/
def filenameSafe (filename : String) : Bool :=
  !filename.data.contains '/' && !filename.data.contains '\\'
    && !(splitSepChars '/' filename.data).any (fun seg => seg = ['.', '.'])

/-- Transport outcome of one wheel download in `_download_one`
(`downloader.py` lines 213–256): the request can fail before the
temporary file is opened (connect error or HTTP error status), fail while
streaming (after `open(tmp, "wb")` has created the file), or deliver a
body.  The body is modelled as an abstract content string; `hash` stands
for SHA-256 of the received bytes. -/
inductive Transport where
  | failEarly
  | failMid
  | success (content : String)
deriving DecidableEq, Repr

/-- Filesystem outcome of `_download_one` for one wheel: the content of
the final file (if the rename happened) and whether a `.tmp` file is left
behind. -/
structure DlOutcome where
  finalFile : Option String
  tmpLeft : Bool
deriving DecidableEq, Repr

/-- `_download_one` (`downloader.py` lines 221–256).  On a digest
mismatch the temp is unlinked and no final file appears; on a match (or an
absent expected digest, stored as `""`) the temp is renamed to the final
name.  The `except` clause only logs: a mid-stream transport failure
leaves the temporary file on disk. -/
def downloadOne (hash : String → String) (expectedSha : String) (t : Transport) : DlOutcome :=
  match t with
  | .failEarly => { finalFile := none, tmpLeft := false }
  | .failMid => { finalFile := none, tmpLeft := true }
  | .success content =>
    if expectedSha ≠ "" && hash content ≠ expectedSha then
      { finalFile := none, tmpLeft := false }
    else
      { finalFile := some content, tmpLeft := false }

/-! ## Index emitter (`src/jabberwocky/index.py`) -/

/-- A PEP 691 file entry as built by `_build_file_entry`; `hashes` is
`none` for the empty hashes dict. -/
structure FileEntry where
  filename : String
  url : String
  hashes : Option String
  requiresPython : Option String
deriving DecidableEq, Repr

/-- The URL the local branch of `_build_file_entry` constructs. -/
def localUrl (baseUrl filename : String) : String :=
  if baseUrl ≠ "" then baseUrl ++ "/files/" ++ filename
  else "../../files/" ++ filename

/-- `_build_file_entry` (`index.py` lines 120–154).  `wheelPathExists`
models `wheel_path.exists()` and `fileSha` the value `_sha256_file`
computes from the on-disk file. -/
def buildFileEntry (w : WheelFile) (wheelPathExists : Bool) (fileSha : String)
    (baseUrl : String) (needsWheels : Bool) : Option FileEntry :=
  if needsWheels && wheelPathExists then
    some
      { filename := w.filename
        url := localUrl baseUrl w.filename
        hashes := if fileSha ≠ "" then some fileSha else none
        requiresPython := w.requiresPython }
  else if !needsWheels then
    some
      { filename := w.filename
        url := w.url
        hashes := if w.sha256 ≠ "" then some w.sha256 else none
        requiresPython := w.requiresPython }
  else
    none

/-! ## Wishlist parsing (`src/jabberwocky/config.py`) -/

/-- The list comprehension of `Config.from_wishlist` (`config.py` lines
52–56), over the already split lines of the file: keep lines whose
stripped form is nonempty and that do not start with `#` (the `startswith`
is applied to the raw, unstripped line), and strip each kept line. -/
def fromWishlistPackages (lines : List String) : List String :=
  (lines.filter (fun line => pyStrip line ≠ "" && !strStartsWith line "#")).map pyStrip

/-- The wishlist parse as the amended claim words it: a line contributes
its stripped form exactly when it is non-blank and its raw text does not
begin with `#` at column 0. -/
def wishlistSpec : List String → List String
  | [] => []
  | line :: rest =>
    if pyStrip line ≠ "" ∧ ¬ strStartsWith line "#" then pyStrip line :: wishlistSpec rest
    else wishlistSpec rest

/-! ## HTTP file serving (`src/jabberwocky/server.py`) -/

/-- POSIX-style path normalization, modelling `pathlib.Path.resolve()` on
an absolute path with no symlinks: `.` and empty components vanish, `..`
pops the previous component (or is dropped at the root). -/
def normalizeComponents (comps : List (List Char)) : List (List Char) :=
  comps.foldl
    (fun acc comp =>
      if comp = [] ∨ comp = ['.'] then acc
      else if comp = ['.', '.'] then acc.dropLast
      else acc ++ [comp])
    []

/-- `Path(p).resolve()` for an absolute, symlink-free path string. -/
def resolvePath (p : String) : String :=
  "/" ++ String.intercalate "/" ((normalizeComponents (splitSepChars '/' p.data)).map String.mk)

/-- `Path` join `base / rel`: an absolute right operand replaces the
base (as in `pathlib`). -/
def joinPath (base rel : String) : String :=
  if strStartsWith rel "/" then rel else base ++ "/" ++ rel

/-- The response of `MirrorHandler.serve_file`. -/
inductive ServeResult where
  | badRequest (msg : String)
  | notFound
  | okFile (path : String)
deriving DecidableEq, Repr

/-- `MirrorHandler.serve_file` (`server.py` lines 102–137).  `mirrorDir`
is the resolved mirror directory; `fsExists` models `path.exists()`.  The
containment test is the string-prefix check of the code
`str(path).startswith(str(files_dir.resolve()))`, with no trailing
separator. -/
def serveFile (mirrorDir : String) (fsExists : String → Bool) (filename : String) :
    ServeResult :=
  if !strEndsWith filename ".whl" then .badRequest "Only wheels are served"
  else
    let filesDir := mirrorDir ++ "/files"
    let path := resolvePath (joinPath filesDir filename)
    if !strStartsWith path (resolvePath filesDir) then .badRequest "Invalid filename"
    else if !fsExists path then .notFound
    else .okFile path

/-- `p` designates a file strictly inside directory `d` (same path or a
path with `d ++ "/"` as a prefix). -/
def insideDir (d p : String) : Bool :=
  strStartsWith p (d ++ "/")

/-! ## Update pipeline (`src/jabberwocky/updater.py`) -/

/-- Codepoint-lexicographic comparison, as Python string `<=`. -/
def charListLe : List Char → List Char → Bool
  | [], _ => true
  | _ :: _, [] => false
  | a :: as', b :: bs => if a = b then charListLe as' bs else decide (a < b)

/-- String order used by Python `sorted`. -/
def strLe (a b : String) : Bool :=
  charListLe a.data b.data

/-- Insertion sort by `strLe`, modelling Python `sorted` on filename
sets. -/
def insertSorted (x : String) : List String → List String
  | [] => [x]
  | y :: ys => if strLe x y then x :: y :: ys else y :: insertSorted x ys

/-- `sorted(l)` for strings. -/
def sortStrings (l : List String) : List String :=
  l.foldr insertSorted []

/-- Index of the last `'.'` in a character list, if any. -/
def rfindDot : List Char → Option Nat
  | [] => none
  | c :: rest =>
    match rfindDot rest with
    | some j => some (j + 1)
    | none => if c = '.' then some 0 else none

/-- `pathlib.PurePath.suffix` of a bare filename: the part from the last
dot, unless that dot is the first or last character. -/
def pathSuffix (name : String) : String :=
  match rfindDot name.data with
  | none => ""
  | some i =>
    if 0 < i ∧ i + 1 < name.data.length then String.mk (name.data.drop i) else ""

/-- The filename filter of `_wheel_sha_map` (`updater.py` line 108):
`p.suffix == ".whl"`. -/
def whlOnly (files : List String) : List String :=
  files.filter (fun f => pathSuffix f = ".whl")

/-- `glob("*.whl")` over a directory listing (`updater.py` line 309):
names ending in `.whl`, hidden files excluded. -/
def globWhl (files : List String) : List String :=
  files.filter (fun f => strEndsWith f ".whl" && !strStartsWith f ".")

/-- The preserve-old-wheels merge of `run_update` (`updater.py` lines
307–328): every `*.whl` of `files/` of the current mirror that is not
already in staging is hard-linked (or copied) into staging. -/
def mergePreserve (staging oldMirrorFiles : List String) : List String :=
  staging ++ (globWhl oldMirrorFiles).filter (fun f => !staging.contains f)

/-- `added_wheels` of `compute_diff` (`updater.py` lines 83–87): new
files minus old files, sorted.  Directory listings carry no duplicate
names, so set difference is a filter. -/
def diffAdded (oldFiles newFiles : List String) : List String :=
  sortStrings ((whlOnly newFiles).filter (fun f => !(whlOnly oldFiles).contains f))

/-- `removed_wheels` of `compute_diff`: old files minus new files,
sorted. -/
def diffRemoved (oldFiles newFiles : List String) : List String :=
  sortStrings ((whlOnly oldFiles).filter (fun f => !(whlOnly newFiles).contains f))

/-- The `APPLY.md` lines written by `_write_apply_md` (`updater.py` lines
202–270) for a diff with the given added/removed wheel lists.  Index
counts enter only the summary table. -/
def applyMdLines (timestamp : String) (added removed : List String)
    (changedIdx addedIdx : Nat) : List String :=
  [ "# Mirror update — " ++ timestamp,
    "",
    "## Summary",
    "",
    "| Change | Count |",
    "|--------|-------|",
    "| Wheels added | " ++ toString added.length ++ " |",
    "| Wheels removed | " ++ toString removed.length ++ " |",
    "| Index entries updated | " ++ toString changedIdx ++ " |",
    "| Index entries added | " ++ toString addedIdx ++ " |",
    "",
    "## Applying this update to the offline machine",
    "",
    "Transfer the entire `diffs/" ++ timestamp ++ "/` folder to the offline machine, "
      ++ "then run the commands below from the directory that contains your `mirror/` folder.",
    "",
    "```bash",
    "DIFF=diffs/" ++ timestamp,
    "",
    "# 1. Copy new/updated wheel files",
    "cp -r \"$DIFF/files/.\" mirror/files/",
    "",
    "# 2. Copy new/updated index entries",
    "cp -r \"$DIFF/simple/.\" mirror/simple/",
    "" ]
  ++ (if removed.isEmpty then []
      else "# 3. Remove wheels that are no longer in the mirror"
        :: removed.map (fun name => "rm -f mirror/files/" ++ name) ++ [""])
  ++ [ "```", "", "## Removed wheels", "" ]
  ++ (if removed.isEmpty then ["_(none)_"] else removed.map (fun name => "- `" ++ name ++ "`"))
  ++ [ "", "## Added wheels", "" ]
  ++ (if added.isEmpty then ["_(none)_"] else added.map (fun name => "- `" ++ name ++ "`"))

/-! ## Resolver (`src/jabberwocky/pypi.py`, `resolve`)

The network of the resolver and `packaging`-library calls are abstracted into a
deterministic environment: `fetchRelease`/`fetchDeps` stand for the
`PyPIClient` methods, `canon` for `packaging.utils.canonicalize_name`.  A
requirement carries the two values the resolver extracts from it via the
`packaging` library: `reachable` is the value of
`_dep_reachable(req, python_versions, platforms)` (marker evaluation over
the fixed target set of the run) and `pin` the value of
`_extract_pin(req)`.  `asyncio.gather` preserves the order of its task
list, so each batch is processed in list order. -/

/-- A dependency requirement as the resolver consumes it. -/
structure Req where
  name : String
  reachable : Bool
  pin : Option String
deriving DecidableEq, Repr

/-- The external world of one resolver run. -/
structure ResolveEnv where
  canon : String → String
  fetchRelease : String → Option String → Option Release
  fetchDeps : String → String → List Req

/-- The resolver state: the closure map `resolved` (an association list
keyed by canonical name, insertion ordered like a Python dict) and the
work `queue` of `(name, pinned-version-or-None, needs_wheels)` entries. -/
structure ResolveState where
  resolved : List (String × ResolvedPackage)
  queue : List (String × Option String × Bool)

/-- `resolved[c].needs_wheels = True`: the monotone upgrade assignment. -/
def upgradeNW (resolved : List (String × ResolvedPackage)) (c : String) :
    List (String × ResolvedPackage) :=
  resolved.map (fun kv => if kv.1 = c then (kv.1, { kv.2 with needsWheels := true }) else kv)

/-- Python dict assignment `resolved[c] = rp`: replace if present, else
append. -/
def setEntry (resolved : List (String × ResolvedPackage)) (c : String)
    (rp : ResolvedPackage) : List (String × ResolvedPackage) :=
  if (List.lookup c resolved).isSome then
    resolved.map (fun kv => if kv.1 = c then (c, rp) else kv)
  else
    resolved ++ [(c, rp)]

/-- The frontier drain of one BFS round (`pypi.py` lines 304–314).  The
code pops from the end of `queue`, so the caller passes the queue
reversed; `inFlight` and `batch` accumulate.  A drained entry whose
canonical name is already resolved and which carries `needs_wheels=True`
upgrades the stored bit; names already resolved or in flight are not
batched again. -/
def drainLoop (env : ResolveEnv) :
    List (String × Option String × Bool) → List (String × ResolvedPackage) →
    List String → List (String × Option String × Bool) →
    List (String × ResolvedPackage) × List (String × Option String × Bool)
  | [], resolved, _, batch => (resolved, batch)
  | (name, ver, needsWheels) :: rest, resolved, inFlight, batch =>
    let c := env.canon name
    if (List.lookup c resolved).isSome || inFlight.contains c then
      let resolved' :=
        if (List.lookup c resolved).isSome && needsWheels then upgradeNW resolved c
        else resolved
      drainLoop env rest resolved' inFlight batch
    else
      drainLoop env rest resolved (c :: inFlight) (batch ++ [(c, ver, needsWheels)])

/-- The release-fetch phase of one round (`pypi.py` lines 322–346): for
each batch entry, fetch the release; on success record the
`ResolvedPackage` and plan a dependency fetch `(canonical, needs_wheels,
deps)`. -/
def fetchBatch (env : ResolveEnv) (resolved : List (String × ResolvedPackage)) :
    List (String × Option String × Bool) →
    List (String × ResolvedPackage) × List (String × Bool × List Req)
  | [] => (resolved, [])
  | (c, ver, needsWheels) :: rest =>
    match env.fetchRelease c ver with
    | none => fetchBatch env resolved rest
    | some rel =>
      let resolved' := setEntry resolved c
        { name := c, version := rel.version, release := rel, needsWheels := needsWheels }
      let (resolvedOut, jobs) := fetchBatch env resolved' rest
      (resolvedOut, (c, needsWheels, env.fetchDeps c rel.version) :: jobs)

/-- Processing of one dependency edge (`pypi.py` lines 351–372): if the
child is already resolved, upgrade its bit when
`parent_needs_wheels and reachable`; otherwise enqueue it with
`needs_wheels = reachable and parent_needs_wheels` and the optional
`==` pin. -/
def processEdge (env : ResolveEnv) (st : ResolveState) (parentNW : Bool) (req : Req) :
    ResolveState :=
  let dc := env.canon req.name
  match List.lookup dc st.resolved with
  | some _ =>
    if parentNW && req.reachable then { st with resolved := upgradeNW st.resolved dc }
    else st
  | none =>
    { st with queue := st.queue ++ [(req.name, req.pin, req.reachable && parentNW)] }

/-- Fold of `processEdge` over one dependency list. -/
def processReqs (env : ResolveEnv) (st : ResolveState) (parentNW : Bool) :
    List Req → ResolveState
  | [] => st
  | req :: rest => processReqs env (processEdge env st parentNW req) parentNW rest

/-- Fold over all `(canonical, needs_wheels, deps)` jobs of a round. -/
def processJobs (env : ResolveEnv) (st : ResolveState) :
    List (String × Bool × List Req) → ResolveState
  | [] => st
  | (_, parentNW, deps) :: rest => processJobs env (processReqs env st parentNW deps) rest

/-- One iteration of the `while queue` loop of `resolve`.  Returns the new
state and whether the loop continues (`False` models the `break` when the
drain produced no tasks). -/
def resolveRound (env : ResolveEnv) (st : ResolveState) : ResolveState × Bool :=
  let (resolved1, batch) := drainLoop env st.queue.reverse st.resolved [] []
  if batch.isEmpty then ({ resolved := resolved1, queue := [] }, false)
  else
    let (resolved2, jobs) := fetchBatch env resolved1 batch
    (processJobs env { resolved := resolved2, queue := [] } jobs, true)

/-- The `while queue` loop of `resolve`, with fuel supplying the
termination measure the Python loop lacks syntactically. -/
def resolveFuel (env : ResolveEnv) : Nat → ResolveState → ResolveState
  | 0, st => st
  | n + 1, st =>
    if st.queue.isEmpty then st
    else
      let (st', cont) := resolveRound env st
      if cont then resolveFuel env n st' else st'

/-- Initial state of `resolve`: every root package queued with
`needs_wheels = True` and no pin. -/
def resolveInit (packages : List String) : ResolveState :=
  { resolved := [], queue := packages.map (fun pkg => (pkg, none, true)) }

/-! ## Claim-side auxiliary predicates and concrete instances -/

/-- The version-string shape `<digits>.<digits>` named by claim C10. -/
def isDigitsDotDigits (s : String) : Bool :=
  match splitDot s with
  | [a, b] =>
    !a.data.isEmpty && a.data.all Char.isDigit && !b.data.isEmpty && b.data.all Char.isDigit
  | _ => false

/-- The first non-whitespace character of the line is `#` (the comment
shape named by claim C9). -/
def commentByFirstNonWs (line : String) : Bool :=
  strStartsWith (String.mk (line.data.dropWhile isPyWs)) "#"

/-- Platform-tag compatibility as claim C6 words it: exact equality, or a
`manylinux`/`musllinux` wheel tag ending in `_{arch}` (underscore
included) for a `linux_{arch}` target. -/
def specPlatformTagMatches (wheelPlat targetPlat : String) : Bool :=
  wheelPlat = targetPlat
    || (strStartsWith targetPlat "linux_"
        && (strStartsWith wheelPlat "manylinux" || strStartsWith wheelPlat "musllinux")
        && strEndsWith wheelPlat ("_" ++ strDrop targetPlat 6))

/-- A pure wheel with good metadata, used as a concrete instance. -/
def pureWheel : WheelFile :=
  { filename := "good-1.0-py3-none-any.whl"
    url := "https://files.pythonhosted.org/good-1.0-py3-none-any.whl"
    sha256 := ""
    requiresPython := none
    python_tags := ["py3"]
    abi_tags := ["none"]
    platform_tags := ["any"] }

/-- The traversal wheel of `tests/test_security.py`. -/
def evilWheel : WheelFile :=
  { filename := "../../../tmp/evil-1.0-py3-none-any.whl"
    url := "http://example.com/evil.whl"
    sha256 := ""
    requiresPython := none
    python_tags := ["py3"]
    abi_tags := ["none"]
    platform_tags := ["any"] }

/-- The resolved package wrapping `evilWheel`, as in the test. -/
def evilPackage : ResolvedPackage :=
  { name := "evil"
    version := "1.0"
    release := { version := "1.0", wheels := [evilWheel] }
    needsWheels := true }

/-- Monotone evolution of the closure map: every entry observed with
`needs_wheels = True` is still present with `needs_wheels = True`
afterwards. -/
def ResolvedMono (r rOut : List (String × ResolvedPackage)) : Prop :=
  ∀ c rp, List.lookup c r = some rp → rp.needsWheels = true →
    ∃ rp2, List.lookup c rOut = some rp2 ∧ rp2.needsWheels = true

/-- A tiny concrete resolver environment (identity canonicalization, a
registry that answers version 1.0 with no wheels and no dependencies). -/
def envEx : ResolveEnv :=
  { canon := fun s => s
    fetchRelease := fun _ _ => some { version := "1.0", wheels := [] }
    fetchDeps := fun _ _ => [] }

/-- A concrete resolved package with `needs_wheels = True`. -/
def rpEx : ResolvedPackage :=
  { name := "a"
    version := "1.0"
    release := { version := "1.0", wheels := [] }
    needsWheels := true }

/-- A concrete resolver state: `a` resolved with wheels, `b` queued. -/
def stEx : ResolveState :=
  { resolved := [("a", rpEx)], queue := [("b", none, true)] }

/-- A concrete requirement on a not-yet-resolved name. -/
def reqEx : Req := { name := "c", reachable := true, pin := none }

/-- Current mirror `files/` of the C7 update scenario. -/
def c7OldFiles : List String := ["pkgA-1.0-any.whl"]

/-- Staging `files/` of the C7 scenario after download of the freshly
resolved wheel and the preserve-old-wheels merge. -/
def c7Staging : List String := mergePreserve ["pkgA-2.0-any.whl"] c7OldFiles

/-! ## Theorems for the claims -/

/-- C1: the specification and `tests/test_security.py` require every
candidate wheel filename to be validated (no path separator, no `..`
segment) before enqueuing, with violators dropped; the enqueue loop of
`download_wheels` performs no such validation, so the traversal filename
of the security test is enqueued for download (the test asserts
`_download_one` is not called for it, and fails against this code). -/
theorem c1_traversal_filename_enqueued :
    downloadPending [evilPackage] ["3.12"] ["any"] (fun _ => false)
        = some ["../../../tmp/evil-1.0-py3-none-any.whl"]
      ∧ filenameSafe "../../../tmp/evil-1.0-py3-none-any.whl" = false
      ∧ filenameSafe "good-1.0-py3-none-any.whl" = true := by
  decide

/-- C2 counterexample: the claim states that on transport failure the
temporary file is deleted; in `_download_one` the `except` clause only
logs, so a mid-stream transport failure (after `open(tmp, "wb")`) leaves
the temporary file on disk. -/
theorem c2_tmp_not_deleted_on_transport_failure :
    (downloadOne (fun _ => "") "expecteddigest" Transport.failMid).tmpLeft = true
      ∧ (downloadOne (fun _ => "") "expecteddigest" Transport.failMid).finalFile = none := by
  decide

/-- C2 (amended): digest mismatch deletes the temp and writes no final
file; match or absent digest renames the temp to the final name; a
transport failure writes no final file, but a mid-stream failure leaves
the temporary file behind (it is not deleted); consequently every final
file written has hash equal to the registry digest whenever that digest is
present. -/
theorem c2_download_one_protocol (hash : String → String) (expectedSha : String) :
    (∀ t : Transport, t = Transport.failEarly ∨ t = Transport.failMid →
        (downloadOne hash expectedSha t).finalFile = none)
      ∧ (∀ content, expectedSha ≠ "" → hash content ≠ expectedSha →
          downloadOne hash expectedSha (Transport.success content)
            = { finalFile := none, tmpLeft := false })
      ∧ (∀ content, expectedSha = "" ∨ hash content = expectedSha →
          downloadOne hash expectedSha (Transport.success content)
            = { finalFile := some content, tmpLeft := false })
      ∧ (∀ (t : Transport) (content : String),
          (downloadOne hash expectedSha t).finalFile = some content →
          expectedSha ≠ "" → hash content = expectedSha) := by
  refine ⟨?_, ?_, ?_, ?_⟩
  · rintro t (rfl | rfl) <;> rfl
  · intro content hne hmis
    simp [downloadOne, hne, hmis]
  · rintro content (h | h) <;> simp [downloadOne, h]
  · intro t content hfin hne
    cases t with
    | failEarly => simp [downloadOne] at hfin
    | failMid => simp [downloadOne] at hfin
    | success c =>
      by_cases hh : hash c = expectedSha
      · simp [downloadOne, hh] at hfin
        exact hfin ▸ hh
      · simp [downloadOne, hne, hh] at hfin

/-- C2 witness: the protocol theorem applied at a concrete hash function,
digest and transport outcome. -/
theorem c2_download_one_protocol_witness :
    downloadOne (fun _ => "d") "d" (Transport.success "bytes")
      = { finalFile := some "bytes", tmpLeft := false } :=
  (c2_download_one_protocol (fun _ => "d") "d").2.2.1 "bytes" (Or.inr rfl)

/-- C4: `_build_file_entry` yields the local `files/` URL exactly in the
branch requiring `needs_wheels` and the file present on disk; with
`needs_wheels` and the file absent the entry is omitted (`None`);
metadata-only packages receive the upstream URL; hence an entry whose URL
is the local form either comes from the local branch (file present) or
coincides literally with the upstream URL. -/
theorem c4_local_url_only_when_file_exists (w : WheelFile) (ex : Bool)
    (fileSha baseUrl : String) (nw : Bool) :
    (nw = true → ex = true →
        ∃ e, buildFileEntry w ex fileSha baseUrl nw = some e
          ∧ e.url = localUrl baseUrl w.filename)
      ∧ (nw = true → ex = false → buildFileEntry w ex fileSha baseUrl nw = none)
      ∧ (nw = false →
          ∃ e, buildFileEntry w ex fileSha baseUrl nw = some e ∧ e.url = w.url)
      ∧ (∀ e, buildFileEntry w ex fileSha baseUrl nw = some e →
          e.url = localUrl baseUrl w.filename →
          (nw = true ∧ ex = true) ∨ e.url = w.url) := by
  refine ⟨?_, ?_, ?_, ?_⟩
  · rintro rfl rfl
    exact ⟨_, rfl, rfl⟩
  · rintro rfl rfl
    rfl
  · rintro rfl
    cases ex <;> exact ⟨_, rfl, rfl⟩
  · intro e he hurl
    cases nw with
    | false =>
      cases ex with
      | false =>
        simp [buildFileEntry] at he
        exact Or.inr (by simp [← he])
      | true =>
        simp [buildFileEntry] at he
        exact Or.inr (by simp [← he])
    | true =>
      cases ex with
      | false => simp [buildFileEntry] at he
      | true => exact Or.inl ⟨rfl, rfl⟩

/-- C4 witness: the theorem applied to the pure wheel with the file
present, and to a metadata-only package. -/
theorem c4_local_url_only_when_file_exists_witness :
    (∃ e, buildFileEntry pureWheel true "abc123" "" true = some e
        ∧ e.url = localUrl "" pureWheel.filename)
      ∧ buildFileEntry pureWheel false "" "" true = none :=
  ⟨(c4_local_url_only_when_file_exists pureWheel true "abc123" "" true).1 rfl rfl,
   (c4_local_url_only_when_file_exists pureWheel false "" "" true).2.1 rfl rfl⟩

/-- C7 counterexample: in the update scenario (current mirror holds
`pkgA-1.0-any.whl`, fresh resolution selects `pkgA-2.0-any.whl`), the
preserve-old-wheels merge links the 1.0 wheel into staging before
`compute_diff` runs, so `removed_wheels` is empty — not
`[pkgA-1.0-any.whl]` — and `APPLY.md` contains no `rm -f` line for it. -/
theorem c7_removed_wheels_empty :
    diffRemoved c7OldFiles c7Staging ≠ ["pkgA-1.0-any.whl"]
      ∧ "rm -f mirror/files/pkgA-1.0-any.whl" ∉
          applyMdLines "20260101T000000Z" (diffAdded c7OldFiles c7Staging)
            (diffRemoved c7OldFiles c7Staging) 0 0 := by
  decide

/-- C7 (amended): the diff of the scenario has
`added_wheels = [pkgA-2.0-any.whl]` and `removed_wheels = []`, because the
preserve-old-wheels merge keeps `pkgA-1.0-any.whl` in the staging tree
(both wheels are in staging, hence in the post-apply mirror), and the
generated `APPLY.md` therefore has no removal section. -/
theorem c7_update_diff_scenario :
    diffAdded c7OldFiles c7Staging = ["pkgA-2.0-any.whl"]
      ∧ diffRemoved c7OldFiles c7Staging = []
      ∧ "pkgA-1.0-any.whl" ∈ c7Staging
      ∧ "pkgA-2.0-any.whl" ∈ c7Staging
      ∧ ∀ line ∈ applyMdLines "20260101T000000Z" (diffAdded c7OldFiles c7Staging)
          (diffRemoved c7OldFiles c7Staging) 0 0,
          ¬ strStartsWith line "rm -f " = true := by
  decide

/-- C8: the claim (and the comments in `serve_file`) require 400 on any
attempt to escape the files root; the containment check is
`str(path).startswith(str(files_dir))` with no trailing separator, so a
sibling of `files/` whose name extends the string `files` — here
`<mirror>/filesevil.whl` reached via `GET /files/../filesevil.whl` — passes
the check and its bytes are served from outside the files root.  The
other branches behave as claimed at the inputs below (400 for
non-`.whl`, 404 for a missing wheel, 400 for a plain escape). -/
theorem c8_prefix_check_escape :
    serveFile "/m" (fun p => p = "/m/filesevil.whl") "../filesevil.whl"
        = ServeResult.okFile "/m/filesevil.whl"
      ∧ insideDir "/m/files" "/m/filesevil.whl" = false
      ∧ serveFile "/m" (fun _ => false) "x.txt"
          = ServeResult.badRequest "Only wheels are served"
      ∧ serveFile "/m" (fun _ => false) "missing-1.0-py3-none-any.whl"
          = ServeResult.notFound
      ∧ serveFile "/m" (fun _ => true) "../../etc/passwd.whl"
          = ServeResult.badRequest "Invalid filename" := by
  decide

/-- C9 counterexample: a line whose first non-whitespace character is `#`
but which begins with whitespace is kept by `from_wishlist` (the
`startswith("#")` test runs on the raw line), contributing the package
`"#foo"` — the claim says such a line contributes no package. -/
theorem c9_indented_comment_contributes :
    commentByFirstNonWs "  #foo" = true
      ∧ fromWishlistPackages ["  #foo"] = ["#foo"] := by
  decide

/-- C9 (amended): parsing yields exactly the stripped forms of the lines
that are non-blank and do not start with `#` in column 0 of the raw line
(leading whitespace is not skipped before the comment test), in file
order. -/
theorem c9_wishlist_lines (lines : List String) :
    fromWishlistPackages lines = wishlistSpec lines := by
  induction lines with
  | nil => rfl
  | cons l ls ih =>
    by_cases h1 : pyStrip l ≠ ""
    · by_cases h2 : strStartsWith l "#" = true
      · simp [fromWishlistPackages, wishlistSpec, h1, h2, List.filter_cons] at *
        exact ih
      · simp [fromWishlistPackages, wishlistSpec, h1, h2, List.filter_cons] at *
        exact ih
    · simp only [ne_eq, not_not] at h1
      simp [fromWishlistPackages, wishlistSpec, h1, List.filter_cons] at *
      exact ih

/-- The exact-tag test agrees with the disjunction of tag equalities. -/
theorem exactTagOk_iff (major minor t : String) :
    exactTagOk major minor t = true ↔
      t = "cp" ++ major ++ minor ∨ t = "py" ++ major
        ∨ t = "py" ++ major ++ minor ∨ t = "py3" ∨ t = "cp3" := by
  simp [exactTagOk, Bool.or_eq_true, or_assoc]

/-- The abi3 loop body agrees with its propositional reading. -/
theorem abi3TagOk_iff (targetMajor targetMinor : Int) (tag : String) :
    abi3TagOk targetMajor targetMinor tag = true ↔
      strStartsWith tag "cp3" = true ∧ strLen tag > 3
        ∧ ∃ k : Int, pyIntParse (strDrop tag 3) = some k
            ∧ targetMajor = 3 ∧ k ≤ targetMinor := by
  cases h : pyIntParse (strDrop tag 3) with
  | none => simp [abi3TagOk, h]
  | some k =>
    simp [abi3TagOk, h, Bool.and_eq_true, and_assoc, eq_comm (a := some k)]

/-- C5: against a target version whose string splits as `M.m` with both
parts accepted by `int()`, `matches_python` returns `True` exactly when
some python tag equals `cp{M}{m}`, `py{M}`, `py{M}{m}`, `py3` or `cp3`, or
some ABI tag equals `abi3` and some python tag is `cp3{k}` (a `cp3` prefix
with an integer remainder `k`) with `k ≤ m` and target major 3. -/
theorem c5_matches_python_exactly (w : WheelFile) (v major minor : String) (M m : Int)
    (hsplit : splitDot v = [major, minor])
    (hM : pyIntParse major = some M) (hm : pyIntParse minor = some m) :
    w.matchesPython v = some true ↔
      (∃ t ∈ w.python_tags,
          t = "cp" ++ major ++ minor ∨ t = "py" ++ major
            ∨ t = "py" ++ major ++ minor ∨ t = "py3" ∨ t = "cp3")
        ∨ ("abi3" ∈ w.abi_tags ∧ M = 3
            ∧ ∃ t ∈ w.python_tags, ∃ k : Int,
                strStartsWith t "cp3" = true ∧ strLen t > 3
                  ∧ pyIntParse (strDrop t 3) = some k ∧ k ≤ m) := by
  have e1 : w.python_tags.any (exactTagOk major minor) = true ↔
      ∃ t ∈ w.python_tags,
        t = "cp" ++ major ++ minor ∨ t = "py" ++ major
          ∨ t = "py" ++ major ++ minor ∨ t = "py3" ∨ t = "cp3" := by
    simp [List.any_eq_true, exactTagOk_iff]
  have e2 : (w.abi_tags.contains "abi3" && w.python_tags.any (abi3TagOk M m)) = true ↔
      "abi3" ∈ w.abi_tags ∧ M = 3
        ∧ ∃ t ∈ w.python_tags, ∃ k : Int,
            strStartsWith t "cp3" = true ∧ strLen t > 3
              ∧ pyIntParse (strDrop t 3) = some k ∧ k ≤ m := by
    simp only [Bool.and_eq_true, List.elem_iff, List.any_eq_true, abi3TagOk_iff]
    constructor
    · rintro ⟨hmem, t, ht, hstart, hlen, k, hparse, hM3, hk⟩
      exact ⟨hmem, hM3, t, ht, k, hstart, hlen, hparse, hk⟩
    · rintro ⟨hmem, hM3, t, ht, k, hstart, hlen, hparse, hk⟩
      exact ⟨hmem, t, ht, hstart, hlen, k, hparse, hM3, hk⟩
  simp only [WheelFile.matchesPython, hsplit, hM, hm]
  by_cases h1 : w.python_tags.any (exactTagOk major minor) = true
  · rw [if_pos h1]
    exact iff_of_true rfl (Or.inl (e1.mp h1))
  · rw [if_neg h1]
    by_cases h2 : (w.abi_tags.contains "abi3" && w.python_tags.any (abi3TagOk M m)) = true
    · rw [if_pos h2]
      exact iff_of_true rfl (Or.inr (e2.mp h2))
    · rw [if_neg h2]
      refine iff_of_false (by simp) ?_
      rintro (hp | hp)
      · exact h1 (e1.mpr hp)
      · exact h2 (e2.mpr hp)

/-- C5 witness: the characterization applied to a stable-ABI wheel
(`cp36`, `abi3`) against target `3.12`. -/
theorem c5_matches_python_exactly_witness :
    (WheelFile.matchesPython
        { filename := "pkg-1.0-cp36-abi3-linux_x86_64.whl"
          url := ""
          sha256 := ""
          requiresPython := none
          python_tags := ["cp36"]
          abi_tags := ["abi3"]
          platform_tags := ["linux_x86_64"] } "3.12" = some true) ↔
      (∃ t ∈ ["cp36"],
          t = "cp" ++ "3" ++ "12" ∨ t = "py" ++ "3"
            ∨ t = "py" ++ "3" ++ "12" ∨ t = "py3" ∨ t = "cp3")
        ∨ ("abi3" ∈ ["abi3"] ∧ (3 : Int) = 3
            ∧ ∃ t ∈ ["cp36"], ∃ k : Int,
                strStartsWith t "cp3" = true ∧ strLen t > 3
                  ∧ pyIntParse (strDrop t 3) = some k ∧ k ≤ 12) :=
  c5_matches_python_exactly _ "3.12" "3" "12" 3 12 (by decide) (by decide) (by decide)

/-- `platformTagMatches` agrees with its propositional reading (the code
requires the wheel tag to end in the bare arch string). -/
theorem platformTagMatches_iff (p t : String) :
    platformTagMatches p t = true ↔
      p = t ∨ (strStartsWith t "linux_" = true
        ∧ (strStartsWith p "manylinux" = true ∨ strStartsWith p "musllinux" = true)
        ∧ strEndsWith p (strDrop t 6) = true) := by
  by_cases he : p = t
  · simp [platformTagMatches, he]
  · by_cases hl : strStartsWith t "linux_" = true
    · simp [platformTagMatches, he, hl, Bool.and_eq_true, Bool.or_eq_true, and_assoc]
    · simp [platformTagMatches, he, hl]

/-- C6 counterexample: the claim requires the `manylinux`/`musllinux`
wheel tag to end in `_{arch}`; the code tests `endswith(arch)` without the
underscore, so `manylinux1_i686` matches the target `linux_686` although
it does not end in `_686`. -/
theorem c6_endswith_without_underscore :
    platformTagMatches "manylinux1_i686" "linux_686" = true
      ∧ specPlatformTagMatches "manylinux1_i686" "linux_686" = false := by
  decide

/-- When every element evaluates without an exception, `anyOpt` is
`some true` exactly on a witness. -/
theorem anyOpt_some_true_iff (f : α → Option Bool) (l : List α)
    (h : ∀ x ∈ l, (f x).isSome = true) :
    anyOpt f l = some true ↔ ∃ x ∈ l, f x = some true := by
  induction l with
  | nil => simp [anyOpt]
  | cons a rest ih =>
    have ha := h a (by simp)
    rcases hb : f a with _ | b
    · rw [hb] at ha; simp at ha
    · cases b with
      | true =>
        simp only [anyOpt, hb]
        exact iff_of_true trivial ⟨a, by simp, hb⟩
      | false =>
        have hrest := ih (fun x hx => h x (by simp [hx]))
        simp only [anyOpt, hb]
        rw [hrest]
        constructor
        · rintro ⟨x, hx, hfx⟩; exact ⟨x, by simp [hx], hfx⟩
        · rintro ⟨x, hx, hfx⟩
          rcases List.mem_cons.mp hx with rfl | hx'
          · rw [hb] at hfx; simp at hfx
          · exact ⟨x, hx', hfx⟩

/-- When every element evaluates without an exception, `anyOpt` raises no
exception. -/
theorem anyOpt_isSome_of_forall (f : α → Option Bool) (l : List α)
    (h : ∀ x ∈ l, (f x).isSome = true) :
    (anyOpt f l).isSome = true := by
  induction l with
  | nil => simp [anyOpt]
  | cons a rest ih =>
    have ha := h a (by simp)
    rcases hb : f a with _ | b
    · rw [hb] at ha; simp at ha
    · cases b with
      | true => simp [anyOpt, hb]
      | false =>
        simp only [anyOpt, hb]
        exact ih (fun x hx => h x (by simp [hx]))

/-- C6 (amended): platform compatibility holds exactly when the wheel has
tag `any`, an exact tag match, or — for a `linux_{arch}` target — a
`manylinux`/`musllinux` tag ending in the bare arch string (the underscore
is not required); and a wheel is wanted exactly when it matches at least
one target runtime version and at least one target platform (for runtime
versions on which `matches_python` does not raise). -/
theorem c6_platform_and_wanted :
    (∀ (w : WheelFile) (t : String),
        w.matchesPlatform t = true ↔
          "any" ∈ w.platform_tags
            ∨ ∃ p ∈ w.platform_tags,
                p = t ∨ (strStartsWith t "linux_" = true
                  ∧ (strStartsWith p "manylinux" = true ∨ strStartsWith p "musllinux" = true)
                  ∧ strEndsWith p (strDrop t 6) = true))
      ∧ (∀ (w : WheelFile) (pythonVersions platforms : List String),
          (∀ pv ∈ pythonVersions, (w.matchesPython pv).isSome = true) →
          (wheelWanted w pythonVersions platforms = some true ↔
            (∃ pv ∈ pythonVersions, w.matchesPython pv = some true)
              ∧ ∃ pl ∈ platforms, w.matchesPlatform pl = true)) := by
  have hplat : ∀ (w : WheelFile) (t : String),
      w.matchesPlatform t = true ↔
        "any" ∈ w.platform_tags
          ∨ ∃ p ∈ w.platform_tags,
              p = t ∨ (strStartsWith t "linux_" = true
                ∧ (strStartsWith p "manylinux" = true ∨ strStartsWith p "musllinux" = true)
                ∧ strEndsWith p (strDrop t 6) = true) := by
    intro w t
    by_cases hp : w.isPure = true
    · have : "any" ∈ w.platform_tags := by
        simpa [WheelFile.isPure, List.elem_iff] using hp
      simp [WheelFile.matchesPlatform, hp, this]
    · have hmem : "any" ∉ w.platform_tags := by
        simpa [WheelFile.isPure, List.elem_iff] using hp
      simp [WheelFile.matchesPlatform, hp, hmem, List.any_eq_true, platformTagMatches_iff]
  refine ⟨hplat, ?_⟩
  intro w pys plats hdef
  rcases hao : anyOpt w.matchesPython pys with _ | po
  · have hs := anyOpt_isSome_of_forall w.matchesPython pys hdef
    rw [hao] at hs
    simp at hs
  · have hiff := anyOpt_some_true_iff w.matchesPython pys hdef
    rw [hao] at hiff
    have hiff2 : po = true ↔ ∃ pv ∈ pys, w.matchesPython pv = some true :=
      Option.some_inj.symm.trans hiff
    simp only [wheelWanted, hao, Option.some_inj, Bool.and_eq_true, List.any_eq_true]
    rw [hiff2]

/-- C6 witness: the wanted-check applied to the pure wheel against target
`3.12` × `linux_x86_64`. -/
theorem c6_platform_and_wanted_witness :
    wheelWanted pureWheel ["3.12"] ["linux_x86_64"] = some true ↔
      (∃ pv ∈ ["3.12"], pureWheel.matchesPython pv = some true)
        ∧ ∃ pl ∈ ["linux_x86_64"], pureWheel.matchesPlatform pl = true :=
  c6_platform_and_wanted.2 pureWheel ["3.12"] ["linux_x86_64"] (by decide)

/-- C10 (amended): `matches_python` returns a value exactly when the
version string splits on `.` into exactly two parts both accepted by
`int()`; the per-target marker environment construction returns a value
exactly when the split yields exactly two parts — it performs no integer
conversion at all. -/
theorem c10_totality_conditions (w : WheelFile) (s p : String) :
    ((w.matchesPython s).isSome = true ↔
        ∃ a b, splitDot s = [a, b]
          ∧ (pyIntParse a).isSome = true ∧ (pyIntParse b).isSome = true)
      ∧ ((markerEnvFor s p).isSome = true ↔ ∃ a b, splitDot s = [a, b]) := by
  rcases hs : splitDot s with _ | ⟨a, _ | ⟨b, _ | ⟨c, t⟩⟩⟩
  · simp [WheelFile.matchesPython, markerEnvFor, hs]
  · simp [WheelFile.matchesPython, markerEnvFor, hs]
  · constructor
    · rcases hpa : pyIntParse a with _ | M
      · simp [WheelFile.matchesPython, hs, hpa]
      · rcases hpb : pyIntParse b with _ | m
        · simp [WheelFile.matchesPython, hs, hpa, hpb]
        · simp only [WheelFile.matchesPython, hs, hpa, hpb]
          constructor
          · intro _; exact ⟨a, b, rfl, by simp [hpa], by simp [hpb]⟩
          · intro _
            split
            · rfl
            · split <;> rfl
    · simp [markerEnvFor, hs]
  · simp [WheelFile.matchesPython, markerEnvFor, hs]

/-- C10 counterexample: the claim states that for any version string not
of the form `<digits>.<digits>` both `matches_python` and the per-target
environment construction raise; but the environment construction never
parses the parts as integers, so `"3.a"` yields an environment, and
`int()` accepts more than plain digits, so `" 3.11"` is accepted by
`matches_python`. -/
theorem c10_non_digit_versions_accepted :
    isDigitsDotDigits "3.a" = false
      ∧ markerEnvFor "3.a" "linux" ≠ none
      ∧ isDigitsDotDigits " 3.11" = false
      ∧ pureWheel.matchesPython " 3.11" = some true := by
  decide

/-! ### Resolver lemmas for C3 -/

/-- Association-list lookup at the head key. -/
theorem lookup_cons_self (k : String) (v : ResolvedPackage)
    (rest : List (String × ResolvedPackage)) :
    List.lookup k ((k, v) :: rest) = some v := by
  simp [List.lookup_cons]

/-- Association-list lookup past a different head key. -/
theorem lookup_cons_ne (k k1 : String) (v : ResolvedPackage)
    (rest : List (String × ResolvedPackage)) (h : k ≠ k1) :
    List.lookup k ((k1, v) :: rest) = List.lookup k rest := by
  have hb : (k == k1) = false := beq_eq_false_iff_ne.mpr h
  simp [List.lookup_cons, hb]

/-- Unfolding of the upgrade assignment on a cons cell. -/
theorem upgradeNW_cons (k1 : String) (v1 : ResolvedPackage)
    (rest : List (String × ResolvedPackage)) (c : String) :
    upgradeNW ((k1, v1) :: rest) c
      = (if k1 = c then (k1, { v1 with needsWheels := true }) else (k1, v1))
          :: upgradeNW rest c := by
  simp only [upgradeNW, List.map_cons]

/-- The upgrade assignment leaves other keys unchanged. -/
theorem lookup_upgradeNW_other (r : List (String × ResolvedPackage)) (c k : String)
    (hk : k ≠ c) : List.lookup k (upgradeNW r c) = List.lookup k r := by
  induction r with
  | nil => rfl
  | cons kv rest ih =>
    obtain ⟨k1, v1⟩ := kv
    rw [upgradeNW_cons]
    by_cases h1 : k1 = c
    · rw [if_pos h1]
      have hne : k ≠ k1 := fun he => hk (he.trans h1)
      rw [lookup_cons_ne _ _ _ _ hne, lookup_cons_ne _ _ _ _ hne, ih]
    · rw [if_neg h1]
      by_cases h2 : k = k1
      · subst h2
        rw [lookup_cons_self, lookup_cons_self]
      · rw [lookup_cons_ne _ _ _ _ h2, lookup_cons_ne _ _ _ _ h2, ih]

/-- The upgrade assignment sets the bit at its key. -/
theorem lookup_upgradeNW_self (r : List (String × ResolvedPackage)) (c : String)
    (rp : ResolvedPackage) (h : List.lookup c r = some rp) :
    List.lookup c (upgradeNW r c) = some { rp with needsWheels := true } := by
  induction r with
  | nil => simp at h
  | cons kv rest ih =>
    obtain ⟨k1, v1⟩ := kv
    rw [upgradeNW_cons]
    by_cases h1 : k1 = c
    · subst h1
      rw [lookup_cons_self] at h
      rw [if_pos rfl, lookup_cons_self, Option.some_inj.mp h]
    · rw [if_neg h1]
      have hne : c ≠ k1 := fun he => h1 he.symm
      rw [lookup_cons_ne _ _ _ _ hne] at h
      rw [lookup_cons_ne _ _ _ _ hne]
      exact ih h

/-- The upgrade assignment preserves absent keys. -/
theorem lookup_upgradeNW_none (r : List (String × ResolvedPackage)) (c k : String)
    (h : List.lookup k r = none) : List.lookup k (upgradeNW r c) = none := by
  by_cases hk : k = c
  · subst hk
    induction r with
    | nil => rfl
    | cons kv rest ih =>
      obtain ⟨k1, v1⟩ := kv
      rw [upgradeNW_cons]
      by_cases h1 : k1 = k
      · subst h1
        rw [lookup_cons_self] at h
        cases h
      · have hne : k ≠ k1 := fun he => h1 he.symm
        rw [lookup_cons_ne _ _ _ _ hne] at h
        rw [if_neg h1, lookup_cons_ne _ _ _ _ hne]
        exact ih h
  · rw [lookup_upgradeNW_other r c k hk]
    exact h

/-- The upgrade assignment is monotone. -/
theorem resolvedMono_upgradeNW (r : List (String × ResolvedPackage)) (c : String) :
    ResolvedMono r (upgradeNW r c) := by
  intro k rp h hnw
  by_cases hk : k = c
  · subst hk
    exact ⟨_, lookup_upgradeNW_self r k rp h, rfl⟩
  · exact ⟨rp, by rw [lookup_upgradeNW_other r c k hk]; exact h, hnw⟩

/-- `ResolvedMono` is reflexive. -/
theorem resolvedMono_refl (r : List (String × ResolvedPackage)) : ResolvedMono r r :=
  fun _ rp h hnw => ⟨rp, h, hnw⟩

/-- `ResolvedMono` composes. -/
theorem resolvedMono_trans {a b c : List (String × ResolvedPackage)}
    (h1 : ResolvedMono a b) (h2 : ResolvedMono b c) : ResolvedMono a c := by
  intro k rp h hnw
  obtain ⟨rp2, h2a, h2b⟩ := h1 k rp h hnw
  exact h2 k rp2 h2a h2b

/-- A key present in the prefix is found there after appending. -/
theorem lookup_append_some (k : String) (r s : List (String × ResolvedPackage))
    (v : ResolvedPackage) (h : List.lookup k r = some v) :
    List.lookup k (r ++ s) = some v := by
  induction r with
  | nil => simp at h
  | cons kv rest ih =>
    obtain ⟨k1, v1⟩ := kv
    rw [List.cons_append]
    by_cases hk : k = k1
    · subst hk
      rw [lookup_cons_self] at h
      rw [lookup_cons_self]
      exact h
    · rw [lookup_cons_ne _ _ _ _ hk] at h
      rw [lookup_cons_ne _ _ _ _ hk]
      exact ih h

/-- A key absent from the prefix is looked up in the suffix. -/
theorem lookup_append_none (k : String) (r s : List (String × ResolvedPackage))
    (h : List.lookup k r = none) : List.lookup k (r ++ s) = List.lookup k s := by
  induction r with
  | nil => rfl
  | cons kv rest ih =>
    obtain ⟨k1, v1⟩ := kv
    rw [List.cons_append]
    by_cases hk : k = k1
    · subst hk
      rw [lookup_cons_self] at h
      cases h
    · rw [lookup_cons_ne _ _ _ _ hk] at h
      rw [lookup_cons_ne _ _ _ _ hk]
      exact ih h

/-- Dict assignment at a fresh key is an append. -/
theorem setEntry_fresh (r : List (String × ResolvedPackage)) (c : String)
    (rp : ResolvedPackage) (h : List.lookup c r = none) :
    setEntry r c rp = r ++ [(c, rp)] := by
  simp [setEntry, h]

/-- Dict assignment at a fresh key is monotone. -/
theorem resolvedMono_setEntry_fresh (r : List (String × ResolvedPackage)) (c : String)
    (rp : ResolvedPackage) (h : List.lookup c r = none) :
    ResolvedMono r (setEntry r c rp) := by
  rw [setEntry_fresh r c rp h]
  intro k v hk hnw
  exact ⟨v, lookup_append_some k r _ v hk, hnw⟩

/-- Dict assignment at a fresh key keeps other fresh keys fresh. -/
theorem lookup_setEntry_fresh_other (r : List (String × ResolvedPackage)) (c k : String)
    (rp : ResolvedPackage) (h : List.lookup c r = none) (hk : k ≠ c)
    (hkr : List.lookup k r = none) : List.lookup k (setEntry r c rp) = none := by
  rw [setEntry_fresh r c rp h, lookup_append_none k r _ hkr, lookup_cons_ne _ _ _ _ hk]
  rfl

/-- Invariants of the frontier drain: the closure map evolves monotonely,
every batched name is absent from the resulting map, and batched names are
pairwise distinct. -/
theorem drainLoop_spec (env : ResolveEnv) (q : List (String × Option String × Bool)) :
    ∀ (r : List (String × ResolvedPackage)) (inF : List String)
      (batch : List (String × Option String × Bool)),
    (∀ p ∈ batch, List.lookup p.1 r = none) →
    (∀ p ∈ batch, p.1 ∈ inF) →
    ((batch.map (fun p => p.1)).Nodup) →
    ResolvedMono r (drainLoop env q r inF batch).1
      ∧ (∀ p ∈ (drainLoop env q r inF batch).2,
          List.lookup p.1 (drainLoop env q r inF batch).1 = none)
      ∧ (((drainLoop env q r inF batch).2.map (fun p => p.1)).Nodup) := by
  induction q with
  | nil =>
    intro r inF batch h1 h2 h3
    exact ⟨resolvedMono_refl r, h1, h3⟩
  | cons item rest ih =>
    obtain ⟨name, ver, nw⟩ := item
    intro r inF batch h1 h2 h3
    simp only [drainLoop]
    by_cases hc :
        ((List.lookup (env.canon name) r).isSome || inF.contains (env.canon name)) = true
    · rw [if_pos hc]
      have hpre1 : ∀ p ∈ batch,
          List.lookup p.1
            (if (List.lookup (env.canon name) r).isSome && nw
              then upgradeNW r (env.canon name) else r) = none := by
        intro p hp
        by_cases hup : ((List.lookup (env.canon name) r).isSome && nw) = true
        · rw [if_pos hup]
          exact lookup_upgradeNW_none r _ _ (h1 p hp)
        · rw [if_neg hup]
          exact h1 p hp
      have hmono : ResolvedMono r
          (if (List.lookup (env.canon name) r).isSome && nw
            then upgradeNW r (env.canon name) else r) := by
        by_cases hup : ((List.lookup (env.canon name) r).isSome && nw) = true
        · rw [if_pos hup]
          exact resolvedMono_upgradeNW r _
        · rw [if_neg hup]
          exact resolvedMono_refl r
      obtain ⟨m1, m2, m3⟩ := ih _ inF batch hpre1 h2 h3
      exact ⟨resolvedMono_trans hmono m1, m2, m3⟩
    · rw [if_neg hc]
      have hcn : List.lookup (env.canon name) r = none := by
        rcases hl : List.lookup (env.canon name) r with _ | v
        · rfl
        · exfalso
          exact hc (by simp [hl])
      have hcf : (env.canon name) ∉ inF := by
        intro hmem
        exact hc (by simp [List.elem_iff, hmem])
      have h1' : ∀ p ∈ batch ++ [(env.canon name, ver, nw)], List.lookup p.1 r = none := by
        intro p hp
        rcases List.mem_append.mp hp with hp' | hp'
        · exact h1 p hp'
        · have : p = (env.canon name, ver, nw) := by simpa using hp'
          rw [this]
          exact hcn
      have h2' : ∀ p ∈ batch ++ [(env.canon name, ver, nw)], p.1 ∈ env.canon name :: inF := by
        intro p hp
        rcases List.mem_append.mp hp with hp' | hp'
        · exact List.mem_cons_of_mem _ (h2 p hp')
        · have : p = (env.canon name, ver, nw) := by simpa using hp'
          rw [this]
          exact List.mem_cons_self _ _
      have h3' : (((batch ++ [(env.canon name, ver, nw)]).map (fun p => p.1)).Nodup) := by
        have hnotin : env.canon name ∉ batch.map (fun p => p.1) := by
          intro hmem
          obtain ⟨p, hp, hpe⟩ := List.mem_map.mp hmem
          exact hcf (hpe ▸ h2 p hp)
        simp [List.nodup_append, h3, hnotin]
      exact ih r (env.canon name :: inF) (batch ++ [(env.canon name, ver, nw)]) h1' h2' h3'

/-- The release-fetch phase is monotone when the batch keys are fresh and
pairwise distinct (which the drain guarantees): recorded packages only
occupy fresh keys. -/
theorem fetchBatch_mono (env : ResolveEnv) (batch : List (String × Option String × Bool)) :
    ∀ r, (∀ p ∈ batch, List.lookup p.1 r = none) →
    ((batch.map (fun p => p.1)).Nodup) →
    ResolvedMono r (fetchBatch env r batch).1 := by
  induction batch with
  | nil =>
    intro r _ _
    exact resolvedMono_refl r
  | cons item rest ih =>
    obtain ⟨c, ver, nw⟩ := item
    intro r h1 h2
    simp only [fetchBatch]
    have htail : ((rest.map (fun p => p.1)).Nodup)
        ∧ c ∉ rest.map (fun p => p.1) := by
      have h2' := h2
      rw [List.map_cons, List.nodup_cons] at h2'
      exact ⟨h2'.2, h2'.1⟩
    rcases hf : env.fetchRelease c ver with _ | rel
    · exact ih r (fun p hp => h1 p (List.mem_cons_of_mem _ hp)) htail.1
    · have hcr : List.lookup c r = none := h1 (c, ver, nw) (by simp)
      have hm1 : ResolvedMono r (setEntry r c
          { name := c, version := rel.version, release := rel, needsWheels := nw }) :=
        resolvedMono_setEntry_fresh r c _ hcr
      have hpre : ∀ p ∈ rest, List.lookup p.1 (setEntry r c
          { name := c, version := rel.version, release := rel, needsWheels := nw })
            = none := by
        intro p hp
        have hne : p.1 ≠ c := fun he => htail.2 (List.mem_map.mpr ⟨p, hp, he⟩)
        exact lookup_setEntry_fresh_other r c p.1 _ hcr hne
          (h1 p (List.mem_cons_of_mem _ hp))
      have hm2 := ih (setEntry r c
          { name := c, version := rel.version, release := rel, needsWheels := nw })
        hpre htail.1
      exact resolvedMono_trans hm1 hm2

/-- One dependency edge is monotone on the closure map. -/
theorem processEdge_mono (env : ResolveEnv) (st : ResolveState) (parentNW : Bool)
    (req : Req) : ResolvedMono st.resolved (processEdge env st parentNW req).resolved := by
  simp only [processEdge]
  rcases h : List.lookup (env.canon req.name) st.resolved with _ | rp
  · exact resolvedMono_refl _
  · by_cases hb : (parentNW && req.reachable) = true
    · rw [if_pos hb]
      exact resolvedMono_upgradeNW _ _
    · rw [if_neg hb]
      exact resolvedMono_refl _

/-- A dependency list is monotone on the closure map. -/
theorem processReqs_mono (env : ResolveEnv) (reqs : List Req) :
    ∀ (st : ResolveState) (parentNW : Bool),
    ResolvedMono st.resolved (processReqs env st parentNW reqs).resolved := by
  induction reqs with
  | nil =>
    intro st _
    exact resolvedMono_refl _
  | cons req rest ih =>
    intro st pnw
    exact resolvedMono_trans (processEdge_mono env st pnw req) (ih _ pnw)

/-- All dependency jobs of a round are monotone on the closure map. -/
theorem processJobs_mono (env : ResolveEnv) (jobs : List (String × Bool × List Req)) :
    ∀ st : ResolveState, ResolvedMono st.resolved (processJobs env st jobs).resolved := by
  induction jobs with
  | nil =>
    intro st
    exact resolvedMono_refl _
  | cons job rest ih =>
    obtain ⟨c, pnw, deps⟩ := job
    intro st
    exact resolvedMono_trans (processReqs_mono env deps st pnw) (ih _)

/-- One BFS round is monotone on the closure map. -/
theorem resolveRound_mono (env : ResolveEnv) (st : ResolveState) :
    ResolvedMono st.resolved (resolveRound env st).1.resolved := by
  simp only [resolveRound]
  rcases hd : drainLoop env st.queue.reverse st.resolved [] [] with ⟨r1, batch⟩
  have hdspec := drainLoop_spec env st.queue.reverse st.resolved [] []
    (by simp) (by simp) (by simp)
  rw [hd] at hdspec
  by_cases hb : batch.isEmpty = true
  · rw [if_pos hb]
    exact hdspec.1
  · rw [if_neg hb]
    rcases hf : fetchBatch env r1 batch with ⟨r2, jobs⟩
    have hfm := fetchBatch_mono env batch r1 hdspec.2.1 hdspec.2.2
    rw [hf] at hfm
    exact resolvedMono_trans (resolvedMono_trans hdspec.1 hfm)
      (processJobs_mono env jobs { resolved := r2, queue := [] })

/-- The whole resolver run is monotone on the closure map. -/
theorem resolveFuel_mono (env : ResolveEnv) :
    ∀ (n : Nat) (st : ResolveState),
    ResolvedMono st.resolved (resolveFuel env n st).resolved := by
  intro n
  induction n with
  | zero =>
    intro st
    exact resolvedMono_refl _
  | succ k ih =>
    intro st
    simp only [resolveFuel]
    by_cases hq : st.queue.isEmpty = true
    · rw [if_pos hq]
      exact resolvedMono_refl _
    · rw [if_neg hq]
      rcases hr : resolveRound env st with ⟨st2, cont⟩
      have hm := resolveRound_mono env st
      rw [hr] at hm
      cases cont
      · exact hm
      · exact resolvedMono_trans hm (ih st2)

/-- C3: every dependency edge computes the child bit as
`parent.needs_wheels AND reachable` — as a monotone upgrade
`old OR (parent AND reachable)` when the child is already resolved, and as
the enqueued bit otherwise — and across a whole resolver run, a node whose
`needs_wheels` is observed `True` is never later observed `False`. -/
theorem c3_needs_wheels_monotone :
    (∀ (env : ResolveEnv) (st : ResolveState) (parentNW : Bool) (req : Req),
      (∀ rp, List.lookup (env.canon req.name) st.resolved = some rp →
        (processEdge env st parentNW req).queue = st.queue
          ∧ ∃ rp2, List.lookup (env.canon req.name)
                (processEdge env st parentNW req).resolved = some rp2
              ∧ rp2.needsWheels = (rp.needsWheels || (parentNW && req.reachable)))
      ∧ (List.lookup (env.canon req.name) st.resolved = none →
        (processEdge env st parentNW req).resolved = st.resolved
          ∧ (processEdge env st parentNW req).queue
              = st.queue ++ [(req.name, req.pin, parentNW && req.reachable)]))
      ∧ (∀ (env : ResolveEnv) (n : Nat) (st : ResolveState) (c : String)
          (rp : ResolvedPackage),
        List.lookup c st.resolved = some rp → rp.needsWheels = true →
        ∃ rp2, List.lookup c (resolveFuel env n st).resolved = some rp2
          ∧ rp2.needsWheels = true) := by
  constructor
  · intro env st parentNW req
    constructor
    · intro rp hl
      simp only [processEdge, hl]
      by_cases hb : (parentNW && req.reachable) = true
      · rw [if_pos hb]
        refine ⟨rfl, ?_⟩
        exact ⟨_, lookup_upgradeNW_self _ _ _ hl, by simp [hb]⟩
      · rw [if_neg hb]
        have hb' : (parentNW && req.reachable) = false := by
          cases hx : (parentNW && req.reachable)
          · rfl
          · exact absurd hx hb
        exact ⟨rfl, rp, hl, by simp [hb']⟩
    · intro hl
      simp only [processEdge, hl]
      exact ⟨trivial, by rw [Bool.and_comm parentNW req.reachable]⟩
  · intro env n st c rp hl hnw
    exact resolveFuel_mono env n st c rp hl hnw

/-- C3 witness: the edge characterization applied to a concrete
not-yet-resolved requirement, and the run-level monotonicity applied to a
concrete state with an already true bit. -/
theorem c3_needs_wheels_monotone_witness :
    ((processEdge envEx stEx true reqEx).resolved = stEx.resolved
        ∧ (processEdge envEx stEx true reqEx).queue
            = stEx.queue ++ [("c", none, true)])
      ∧ ∃ rp2, List.lookup "a" (resolveFuel envEx 3 stEx).resolved = some rp2
          ∧ rp2.needsWheels = true :=
  ⟨(c3_needs_wheels_monotone.1 envEx stEx true reqEx).2 (by decide),
   c3_needs_wheels_monotone.2 envEx 3 stEx "a" rpEx (by decide) (by decide)⟩

end Jabberwocky
